import Mathlib

/-!
Shallow embedding of the Quantum-Random-Number-Generator repository's
statistical core (src/quantum_core.py and src/utils.py), together with
theorems settling the frozen claims about it.

Modelling conventions:
* a measurement bit is a `Bool` (`false` = 0, `true` = 1);
* Python exceptions become `Except PyErr`; the inductive `PyErr` also
  lists the error classes named by the specification so that statements
  about them can be expressed, even though the code never raises them;
* Python/NumPy float arithmetic in the runs test is modelled by `PF`
  (a rational, NaN, or a signed infinity), reproducing NumPy's silent
  `0.0/0.0 = nan` behaviour; plain-Python float division by zero raises
  `ZeroDivisionError` and is modelled as an `Except` error;
* the library functions `scipy.stats.chi2.cdf`, `scipy.stats.norm.cdf`
  and `np.sqrt` are transcendental: they enter the embedding as explicit
  function parameters, and theorems assume only interval facts that the
  genuine functions satisfy;
* `np.log2` in the entropy computations is modelled by `Real.logb 2`.
-/

deriving instance DecidableEq for Except

namespace QRNG

/-- Error outcomes.  `valueError` and `zeroDivisionError` are the errors the
code actually raises; `emptySequenceError` and `degenerateInputError` are the
error classes named by the specification (no code in the repository defines
or raises them). -/
inductive PyErr where
  | valueError : PyErr
  | zeroDivisionError : PyErr
  | emptySequenceError : PyErr
  | degenerateInputError : PyErr
  deriving DecidableEq, Repr

/-! ### Encoder (quantum_core.py, `to_binary_string` / `to_decimal` /
`to_hex` / `to_float`; utils.py `FormatConverter.binary_to_float`) -/

/-- `str(bit)` for a single bit. -/
def bitChar (b : Bool) : Char := if b then '1' else '0'

/-- Python `int(s, 2)` on a string of binary digits. -/
def intBase2 (s : String) : ℕ :=
  s.data.foldl (fun acc c => 2 * acc + (if c = '1' then 1 else 0)) 0

/-- Big-endian value of a bit list (first bit most significant). -/
def bitsToNat (l : List Bool) : ℕ :=
  l.foldl (fun acc b => 2 * acc + (if b then 1 else 0)) 0

/-- `QuantumRandomNumberGenerator.to_binary_string`:
`if not self.measurements: raise ValueError(...)`, then
`''.join(map(str, self.measurements))`. -/
def to_binary_string (m : List Bool) : Except PyErr String :=
  if m.isEmpty then .error .valueError
  else .ok (String.mk (m.map bitChar))

/-- `QuantumRandomNumberGenerator.to_decimal`: `int(self.to_binary_string(), 2)`. -/
def to_decimal (m : List Bool) : Except PyErr ℕ :=
  (to_binary_string m).map intBase2

/-- `QuantumRandomNumberGenerator.to_hex`: `hex(self.to_decimal())`. -/
def to_hex (m : List Bool) : Except PyErr String :=
  (to_decimal m).map fun d => "0x" ++ String.mk (Nat.toDigits 16 d)

/-- `FormatConverter.binary_to_float`:
`binary_str.ljust(32, '0')[:32]`, then `int(_, 2) / 2**32`. -/
def binary_to_float (s : String) : ℚ :=
  (intBase2 (String.mk ((s.data ++ List.replicate (32 - s.data.length) '0').take 32)) : ℚ)
    / 2 ^ 32

/-- `QuantumRandomNumberGenerator.to_float`: the binary string of the
measurements, left-justified with `'0'` to 32 characters, truncated to 32,
interpreted base 2 and divided by `2**32`. -/
def to_float (m : List Bool) : Except PyErr ℚ :=
  (to_binary_string m).map binary_to_float

/-! ### Chi-square test (utils.py, `RandomnessTests.chi_square_test`).
`chi2cdf` stands for `scipy.stats.chi2.cdf (·, df := 1)`. -/

structure ChiSquareResult where
  chi_square_statistic : ℚ
  p_value : ℚ
  passes_test : Bool
  interpretation : String
  deriving DecidableEq, Repr

def chi_square_test (chi2cdf : ℚ → ℚ) (measurements : List Bool)
    (expected_prob : ℚ) : Except PyErr ChiSquareResult :=
  let count_0 := measurements.count false
  let count_1 := measurements.count true
  let total := measurements.length
  let expected_count : ℚ := (total : ℚ) * expected_prob
  if expected_count = 0 then .error .zeroDivisionError
  else
    let chi_square : ℚ :=
      ((count_0 : ℚ) - expected_count) ^ 2 / expected_count +
      ((count_1 : ℚ) - expected_count) ^ 2 / expected_count
    let p_value : ℚ := 1 - chi2cdf chi_square
    .ok { chi_square_statistic := chi_square
          p_value := p_value
          passes_test := decide ((0.05 : ℚ) < p_value)
          interpretation := if (0.05 : ℚ) < p_value then "Random" else "Not random" }

/-! ### Runs test (utils.py, `RandomnessTests.runs_test`). -/

/-- Python/NumPy float value: finite rational, NaN, or a signed infinity. -/
inductive PF where
  | fin : ℚ → PF
  | nan : PF
  | inf : PF
  | ninf : PF
  deriving DecidableEq, Repr

/-- `np.sqrt` on a float: NaN on negative input, otherwise the abstract
square root `sqrt` (a parameter of the embedding).  NaN propagates. -/
def npSqrt (sqrt : ℚ → ℚ) : PF → PF
  | .fin q => if q < 0 then .nan else .fin (sqrt q)
  | .nan => .nan
  | .inf => .inf
  | .ninf => .nan

/-- NumPy float division: `0.0/0.0 = nan`, `x/0.0 = ±inf` for `x ≠ 0`
(with a runtime warning, not an exception); NaN propagates. -/
def pfDiv : PF → PF → PF
  | .fin a, .fin b =>
      if b = 0 then (if a = 0 then .nan else if 0 < a then .inf else .ninf)
      else .fin (a / b)
  | _, _ => .nan

def pfAbs : PF → PF
  | .fin q => .fin |q|
  | .nan => .nan
  | .inf => .inf
  | .ninf => .inf

/-- `scipy.stats.norm.cdf` lifted to float values: `cdf(nan) = nan`,
`cdf(inf) = 1`, `cdf(-inf) = 0`; `Φ` is the abstract finite-input CDF. -/
def normCdfPF (Φ : ℚ → ℚ) : PF → PF
  | .fin q => .fin (Φ q)
  | .nan => .nan
  | .inf => .fin 1
  | .ninf => .fin 0

/-- `2 * (1 - c)` on float values (NaN propagates). -/
def pfPvalue : PF → PF
  | .fin c => .fin (2 * (1 - c))
  | .nan => .nan
  | .inf => .ninf
  | .ninf => .inf

/-- Python float comparison `x > c`: NaN compares `False`. -/
def pfGt (x : PF) (c : ℚ) : Bool :=
  match x with
  | .fin q => decide (c < q)
  | .nan => false
  | .inf => true
  | .ninf => false

/-- The loop `for i in range(1, len(m)): if m[i] != m[i-1]: runs += 1`:
number of adjacent positions where the value changes. -/
def countTransitions : List Bool → ℕ
  | a :: b :: t => (if a ≠ b then 1 else 0) + countTransitions (b :: t)
  | _ => 0

structure RunsResult where
  runs_count : ℕ
  expected_runs : ℚ
  z_score : PF
  p_value : PF
  passes_test : Bool
  interpretation : String
  deriving DecidableEq, Repr

/-- `RandomnessTests.runs_test`.  `expected_runs = 2*n0*n1/n + 1` and
`variance = 2*n0*n1*(2*n0*n1 - n) / (n^2*(n-1))` are plain-Python integer
true divisions, raising `ZeroDivisionError` when the denominator is 0;
the z-score division is NumPy float arithmetic (`PF`). -/
def runs_test (sqrt Φ : ℚ → ℚ) (measurements : List Bool) :
    Except PyErr RunsResult :=
  let runs := 1 + countTransitions measurements
  let n0 := measurements.count false
  let n1 := measurements.count true
  let n := measurements.length
  if n = 0 then .error .zeroDivisionError
  else
    let expected_runs : ℚ := (2 * n0 * n1 : ℚ) / (n : ℚ) + 1
    if (n : ℚ) ^ 2 * ((n : ℚ) - 1) = 0 then .error .zeroDivisionError
    else
      let variance : ℚ :=
        (2 * n0 * n1 : ℚ) * ((2 * n0 * n1 : ℚ) - (n : ℚ)) /
          ((n : ℚ) ^ 2 * ((n : ℚ) - 1))
      let z_score : PF := pfDiv (.fin ((runs : ℚ) - expected_runs)) (npSqrt sqrt (.fin variance))
      let p_value : PF := pfPvalue (normCdfPF Φ (pfAbs z_score))
      .ok { runs_count := runs
            expected_runs := expected_runs
            z_score := z_score
            p_value := p_value
            passes_test := pfGt p_value 0.05
            interpretation := if pfGt p_value 0.05 then "Random" else "Clustered" }

/-! ### Entropy (utils.py `RandomnessTests.entropy_test`,
quantum_core.py `QuantumRandomNumberGenerator.get_statistics`).
`np.log2` is the real base-2 logarithm `Real.logb 2`. -/

structure EntropyResult where
  shannon_entropy : ℝ
  max_entropy : ℝ
  entropy_ratio : ℝ
  quality : String

/-- The guarded Shannon-entropy accumulation
`entropy = 0; if prob_0 > 0: entropy -= prob_0 * log2(prob_0);
if prob_1 > 0: entropy -= prob_1 * log2(prob_1)`, which appears verbatim
both in `RandomnessTests.entropy_test` and in
`QuantumRandomNumberGenerator.get_statistics`. -/
noncomputable def shannonEntropyOf (p q : ℚ) : ℝ :=
  (if 0 < p then -((p : ℝ) * Real.logb 2 (p : ℝ)) else 0) +
  (if 0 < q then -((q : ℝ) * Real.logb 2 (q : ℝ)) else 0)

/-- `RandomnessTests.entropy_test`.  `prob_0 = count_0 / total` is Python
integer true division (`ZeroDivisionError` on an empty list); the entropy
accumulation guards each term with `if prob > 0`. -/
noncomputable def entropy_test (measurements : List Bool) :
    Except PyErr EntropyResult :=
  let total := measurements.length
  let count_0 := measurements.count false
  let count_1 := measurements.count true
  if total = 0 then .error .zeroDivisionError
  else
    let prob_0 : ℚ := (count_0 : ℚ) / (total : ℚ)
    let prob_1 : ℚ := (count_1 : ℚ) / (total : ℚ)
    let entropy : ℝ := shannonEntropyOf prob_0 prob_1
    let max_entropy : ℝ := 1.0
    let ratio : ℝ := entropy / max_entropy
    .ok { shannon_entropy := entropy
          max_entropy := max_entropy
          entropy_ratio := ratio
          quality :=
            if (0.95 : ℝ) < ratio then "Excellent"
            else if (0.85 : ℝ) < ratio then "Good" else "Poor" }

structure Statistics where
  total_measurements : ℕ
  count_0 : ℕ
  count_1 : ℕ
  probability_0 : ℚ
  probability_1 : ℚ
  shannon_entropy : ℝ
  max_entropy : ℝ
  entropy_ratio : ℝ

/-- `QuantumRandomNumberGenerator.get_statistics`:
`if not self.measurements: raise ValueError(...)`, then counts,
probabilities, and the same guarded Shannon-entropy accumulation;
`entropy_ratio = entropy / 1.0`. -/
noncomputable def get_statistics (measurements : List Bool) :
    Except PyErr Statistics :=
  if measurements.isEmpty then .error .valueError
  else
    let total := measurements.length
    let count_0 := measurements.count false
    let count_1 := measurements.count true
    let prob_0 : ℚ := (count_0 : ℚ) / (total : ℚ)
    let prob_1 : ℚ := (count_1 : ℚ) / (total : ℚ)
    let entropy : ℝ := shannonEntropyOf prob_0 prob_1
    .ok { total_measurements := total
          count_0 := count_0
          count_1 := count_1
          probability_0 := prob_0
          probability_1 := prob_1
          shannon_entropy := entropy
          max_entropy := 1.0
          entropy_ratio := entropy / (1.0 : ℝ) }

/-! ### Bit extraction (quantum_core.py,
`QuantumRandomNumberGenerator.generate_random_bits`, lines 54-61).
The Aer result's `get_counts` dictionary is modelled as an association
list of (bitstring, count) pairs with pairwise-distinct keys; for a
1-qubit circuit the keys are among "0" and "1".  The loop
`for bitstring, count in counts.items(): measurements.extend([int(bitstring)] * count)`
expands each aggregated count into a block of identical bits. -/

def generate_random_bits (counts : List (String × ℕ)) : List Bool :=
  counts.flatMap fun kc => List.replicate kc.2 (kc.1 == "1")

/-! ### Abstract facts about the library functions.
These record true numerical facts about `scipy.stats.norm.cdf` and
`np.sqrt`: the standard normal CDF is bounded by 1 and exceeds 0.975
from the 97.5% quantile 1.95996... ≤ 2 onwards, and the square root of
12/7 = 1.71428... lies in [5/4, 3/2] with `sqrt 0 = 0`. -/

def NormalCdfFacts (Φ : ℚ → ℚ) : Prop :=
  (∀ x : ℚ, 2 ≤ x → (0.975 : ℚ) ≤ Φ x) ∧ (∀ x : ℚ, Φ x ≤ 1)

def SqrtFacts (sqrt : ℚ → ℚ) : Prop :=
  sqrt 0 = 0 ∧ (5 / 4 : ℚ) ≤ sqrt (12 / 7) ∧ sqrt (12 / 7) ≤ (3 / 2 : ℚ)

/-! ### Helper lemmas -/

theorem count_false_add_count_true (m : List Bool) :
    m.count false + m.count true = m.length := by
  induction m with
  | nil => rfl
  | cons a t ih =>
    cases a <;> simp [List.count_cons, ih] <;> omega

theorem countTransitions_allEq (x : Bool) :
    ∀ m : List Bool, (∀ b ∈ m, b = x) → countTransitions m = 0 := by
  intro m
  induction m with
  | nil => intro _; rfl
  | cons a t ih =>
    intro h
    cases t with
    | nil => rfl
    | cons b t2 =>
      have ha : a = x := h a (by simp)
      have hb : b = x := h b (by simp)
      have ht : ∀ c ∈ b :: t2, c = x := fun c hc => h c (List.mem_cons_of_mem a hc)
      have hab : a = b := ha.trans hb.symm
      simp [countTransitions, hab, ih ht]

theorem bitsToNatAux_lt (l : List Bool) :
    ∀ acc : ℕ, l.foldl (fun acc b => 2 * acc + (if b then 1 else 0)) acc
      < (acc + 1) * 2 ^ l.length := by
  induction l with
  | nil => intro acc; simp
  | cons b t ih =>
    intro acc
    calc (b :: t).foldl (fun acc b => 2 * acc + (if b then 1 else 0)) acc
        = t.foldl (fun acc b => 2 * acc + (if b then 1 else 0))
            (2 * acc + (if b then 1 else 0)) := rfl
      _ < (2 * acc + (if b then 1 else 0) + 1) * 2 ^ t.length := ih _
      _ ≤ (acc + 1) * 2 ^ (b :: t).length := by
          have : (if b then 1 else 0) ≤ 1 := by cases b <;> simp
          simp only [List.length_cons, pow_succ]
          nlinarith [Nat.pos_pow_of_pos t.length (show 0 < 2 by norm_num)]

theorem bitsToNat_lt (l : List Bool) : bitsToNat l < 2 ^ l.length := by
  have h := bitsToNatAux_lt l 0
  simpa [bitsToNat] using h

/-- Each guarded entropy term, on a nonnegative probability. -/
theorem guardedTerm_eq (r : ℚ) (hr0 : 0 ≤ r) :
    (if 0 < r then -((r : ℝ) * Real.logb 2 (r : ℝ)) else 0)
      = (r : ℝ) * Real.log (r : ℝ)⁻¹ / Real.log 2 := by
  by_cases hr : 0 < r
  · rw [if_pos hr, Real.logb, Real.log_inv]
    ring
  · have hrz : r = 0 := le_antisymm (not_lt.mp hr) hr0
    rw [if_neg hr, hrz]
    simp

/-- The guarded two-term entropy accumulation of the source equals the
binary entropy function divided by `log 2`. -/
theorem guardedEntropy_eq_binEntropy (p q : ℚ) (hp : 0 ≤ p) (hq : 0 ≤ q)
    (hpq : p + q = 1) :
    shannonEntropyOf p q = Real.binEntropy (p : ℝ) / Real.log 2 := by
  have hq1 : q = 1 - p := by linarith
  have hqp : (q : ℝ) = 1 - (p : ℝ) := by
    rw [hq1]; push_cast; ring
  rw [shannonEntropyOf, guardedTerm_eq p hp, guardedTerm_eq q hq, hqp,
    Real.binEntropy, div_add_div_same]

/-- Bounds on the guarded entropy sum, with the exact equality case. -/
theorem guardedEntropy_bounds (p q : ℚ) (hp : 0 ≤ p) (hq : 0 ≤ q)
    (hpq : p + q = 1) :
    0 ≤ shannonEntropyOf p q ∧ shannonEntropyOf p q ≤ 1 ∧
    (shannonEntropyOf p q = 1 ↔ p = 1 / 2 ∧ q = 1 / 2) := by
  rw [guardedEntropy_eq_binEntropy p q hp hq hpq]
  have hlog2 : (0 : ℝ) < Real.log 2 := Real.log_pos (by norm_num)
  have hp1 : p ≤ 1 := by linarith
  have hpR : (0 : ℝ) ≤ (p : ℝ) := by exact_mod_cast hp
  have hpR1 : (p : ℝ) ≤ 1 := by exact_mod_cast hp1
  refine ⟨div_nonneg (Real.binEntropy_nonneg hpR hpR1) hlog2.le,
    (div_le_one hlog2).mpr Real.binEntropy_le_log_two, ?_⟩
  rw [div_eq_one_iff_eq hlog2.ne', Real.binEntropy_eq_log_two]
  constructor
  · intro h
    have hp2 : p = 1 / 2 := by
      have : (p : ℝ) = ((1 / 2 : ℚ) : ℝ) := by rw [h]; norm_num
      exact_mod_cast this
    exact ⟨hp2, by linarith⟩
  · intro h
    rw [h.1]; norm_num

theorem intBase2_map_bitChar (l : List Bool) :
    intBase2 (String.mk (l.map bitChar)) = bitsToNat l := by
  simp only [intBase2, bitsToNat, String.mk, List.foldl_map]
  congr 1
  funext acc b
  cases b <;> simp [bitChar]

/-! ### Claim C5 -/

/-- C5: for every non-empty bit sequence `m` of length `L`,
`to_binary_string m` succeeds with a string of length `L` (digits in
sequence order), and `to_decimal` round-trips: interpreting that string as
a base-2 unsigned integer (`intBase2`, big-endian, unbounded width) equals
the value `to_decimal` returns, which is the big-endian value of the bits. -/
theorem to_binary_roundtrip (m : List Bool) (hm : m ≠ []) :
    ∃ str : String, to_binary_string m = .ok str ∧
      str.length = m.length ∧
      to_decimal m = .ok (intBase2 str) ∧
      intBase2 str = bitsToNat m := by
  refine ⟨String.mk (m.map bitChar), ?_, ?_, ?_, intBase2_map_bitChar m⟩
  · simp [to_binary_string, hm]
  · show (m.map bitChar).length = m.length
    simp
  · simp [to_decimal, to_binary_string, hm, Except.map]

/-- Witness for C5 at the concrete sequence `[1,0,1]`. -/
theorem to_binary_roundtrip_witness :
    ([true, false, true] ≠ ([] : List Bool)) ∧
    (∃ str : String, to_binary_string [true, false, true] = .ok str ∧
      str.length = [true, false, true].length ∧
      to_decimal [true, false, true] = .ok (intBase2 str) ∧
      intBase2 str = bitsToNat [true, false, true]) :=
  ⟨by decide, to_binary_roundtrip [true, false, true] (by decide)⟩

/-! ### Claim C4 -/

/-- C4: for every non-empty bit sequence, `to_float` equals the big-endian
value of the first 32 bits (right-padded with 0 bits to 32 when shorter,
truncated to 32 when longer) divided by `2 ^ 32`, a value in `[0, 1)`; and
two sequences of length ≥ 32 agreeing on their first 32 bits yield the
identical float. -/
theorem to_float_first32 :
    (∀ m : List Bool, m ≠ [] →
      ∃ q : ℚ, to_float m = .ok q ∧
        q = (bitsToNat ((m ++ List.replicate (32 - m.length) false).take 32) : ℚ)
              / 2 ^ 32 ∧
        0 ≤ q ∧ q < 1) ∧
    (∀ m₁ m₂ : List Bool, 32 ≤ m₁.length → 32 ≤ m₂.length →
      m₁.take 32 = m₂.take 32 → to_float m₁ = to_float m₂) := by
  have hval : ∀ m : List Bool,
      binary_to_float (String.mk (m.map bitChar))
        = (bitsToNat ((m ++ List.replicate (32 - m.length) false).take 32) : ℚ)
            / 2 ^ 32 := by
    intro m
    have hlist : ((String.mk (m.map bitChar)).data ++
        List.replicate (32 - (String.mk (m.map bitChar)).data.length) '0').take 32
        = ((m ++ List.replicate (32 - m.length) false).take 32).map bitChar := by
      show ((m.map bitChar) ++
        List.replicate (32 - (m.map bitChar).length) '0').take 32 = _
      rw [List.map_take, List.map_append, List.map_replicate, List.length_map]
      rfl
    rw [binary_to_float, hlist, intBase2_map_bitChar]
  have hok : ∀ m : List Bool, m ≠ [] →
      to_float m = .ok (binary_to_float (String.mk (m.map bitChar))) := by
    intro m hm
    simp [to_float, to_binary_string, hm, Except.map]
  constructor
  · intro m hm
    refine ⟨binary_to_float (String.mk (m.map bitChar)), hok m hm, hval m, ?_, ?_⟩
    · rw [hval m]
      positivity
    · rw [hval m]
      rw [div_lt_one (by positivity)]
      have hlt := bitsToNat_lt ((m ++ List.replicate (32 - m.length) false).take 32)
      have hlen : ((m ++ List.replicate (32 - m.length) false).take 32).length ≤ 32 := by
        simp
      calc (bitsToNat ((m ++ List.replicate (32 - m.length) false).take 32) : ℚ)
          < ((2 : ℕ) ^ ((m ++ List.replicate (32 - m.length) false).take 32).length : ℕ) := by
            exact_mod_cast hlt
        _ ≤ ((2 : ℕ) ^ 32 : ℕ) := by
            exact_mod_cast Nat.pow_le_pow_right (by norm_num) hlen
        _ = (2 : ℚ) ^ 32 := by norm_num
  · intro m₁ m₂ h₁ h₂ hpre
    have hne₁ : m₁ ≠ [] := by
      intro h; rw [h] at h₁; simp at h₁
    have hne₂ : m₂ ≠ [] := by
      intro h; rw [h] at h₂; simp at h₂
    rw [hok m₁ hne₁, hok m₂ hne₂, hval m₁, hval m₂]
    have htrunc : ∀ m : List Bool, 32 ≤ m.length →
        (m ++ List.replicate (32 - m.length) false).take 32 = m.take 32 := by
      intro m hm32
      rw [Nat.sub_eq_zero_of_le hm32]
      simp
    rw [htrunc m₁ h₁, htrunc m₂ h₂, hpre]

/-- Witness for C4: the theorem applied at a 1-bit sequence and at two
33-bit sequences differing only in their last bit. -/
theorem to_float_first32_witness :
    to_float (true :: List.replicate 32 false)
      = to_float (true :: List.replicate 31 false ++ [true]) ∧
    ∃ q : ℚ, to_float [true] = .ok q ∧
      q = (bitsToNat (([true] ++ List.replicate (32 - [true].length) false).take 32) : ℚ)
            / 2 ^ 32 ∧
      0 ≤ q ∧ q < 1 := by
  constructor
  · exact to_float_first32.2 (true :: List.replicate 32 false)
      (true :: List.replicate 31 false ++ [true]) (by decide) (by decide) (by decide)
  · exact to_float_first32.1 [true] (by decide)

/-! ### Claim C9 -/

/-- C9 counterexample: on the empty sequence, `to_binary_string` fails with
`ValueError` — not with the `EmptySequenceError` the claim names (no such
error class exists anywhere in the repository). -/
theorem empty_sequence_counterexample :
    to_binary_string [] ≠ .error .emptySequenceError ∧
    to_binary_string [] = .error .valueError := by
  constructor
  · intro h
    simp [to_binary_string] at h
  · rfl

/-- C9 (amended): every statistic/encoding operation does fail on a
zero-length sequence, but with `ValueError` (the `if not self.measurements`
guard of the encoders and `get_statistics`) or `ZeroDivisionError`
(the `count / total` division of `entropy_test`), never with an
`EmptySequenceError`. -/
theorem empty_sequence_error_behavior :
    to_binary_string [] = .error .valueError ∧
    to_decimal [] = .error .valueError ∧
    to_hex [] = .error .valueError ∧
    to_float [] = .error .valueError ∧
    get_statistics [] = .error .valueError ∧
    entropy_test [] = .error .zeroDivisionError := by
  refine ⟨rfl, rfl, rfl, rfl, ?_, ?_⟩
  · simp [get_statistics]
  · simp [entropy_test]

/-! ### Claim C8 -/

/-- C8 counterexample: with `expected_prob = 1` on a nonempty sequence,
`chi_square_test` does not fail at all (the claim says it fails whenever
`expected_prob` is 0 or 1); and on the empty sequence it fails with
`ZeroDivisionError`, not `DegenerateInputError`. -/
theorem chi_square_error_counterexample :
    chi_square_test (fun _ => 0) [false, true] 1 =
      .ok { chi_square_statistic := 1, p_value := 1, passes_test := true,
            interpretation := "Random" } ∧
    chi_square_test (fun _ => 0) [] (1 / 2) = .error .zeroDivisionError := by
  constructor
  · simp only [chi_square_test]
    norm_num [List.count_cons]
  · simp only [chi_square_test]
    norm_num

/-- C8 (amended): `chi_square_test` fails — with `ZeroDivisionError`, the
only error it can raise — exactly when `expected_count = total * expected_prob`
is zero, i.e. when the sequence is empty or `expected_prob = 0`;
`expected_prob = 1` does not make `expected_count` zero on a nonempty
sequence, and no input produces a `DegenerateInputError`. -/
theorem chi_square_zero_division_iff (chi2cdf : ℚ → ℚ) (m : List Bool) (ep : ℚ) :
    (chi_square_test chi2cdf m ep = .error .zeroDivisionError ↔
      (m.length = 0 ∨ ep = 0)) ∧
    chi_square_test chi2cdf m ep ≠ .error .degenerateInputError := by
  have hcond : ((m.length : ℚ) * ep = 0) ↔ (m.length = 0 ∨ ep = 0) := by
    rw [mul_eq_zero]
    constructor
    · rintro (h | h)
      · exact Or.inl (by exact_mod_cast h)
      · exact Or.inr h
    · rintro (h | h)
      · exact Or.inl (by exact_mod_cast h)
      · exact Or.inr h
  constructor
  · constructor
    · intro h
      rw [← hcond]
      by_contra hne
      simp [chi_square_test, hne] at h
    · intro h
      rw [← hcond] at h
      simp [chi_square_test, h]
  · intro h
    by_cases hz : (m.length : ℚ) * ep = 0
    · simp [chi_square_test, hz] at h
    · simp [chi_square_test, hz] at h

/-! ### Claim C2 -/

/-- Evaluation of `chi_square_test` when `expected_count` is nonzero. -/
theorem chi_square_test_ok (chi2cdf : ℚ → ℚ) (m : List Bool) (ep : ℚ)
    (h : (m.length : ℚ) * ep ≠ 0) :
    chi_square_test chi2cdf m ep =
      .ok { chi_square_statistic :=
              ((m.count false : ℚ) - (m.length : ℚ) * ep) ^ 2 / ((m.length : ℚ) * ep) +
              ((m.count true : ℚ) - (m.length : ℚ) * ep) ^ 2 / ((m.length : ℚ) * ep)
            p_value := 1 - chi2cdf
              (((m.count false : ℚ) - (m.length : ℚ) * ep) ^ 2 / ((m.length : ℚ) * ep) +
               ((m.count true : ℚ) - (m.length : ℚ) * ep) ^ 2 / ((m.length : ℚ) * ep))
            passes_test := decide ((0.05 : ℚ) < 1 - chi2cdf
              (((m.count false : ℚ) - (m.length : ℚ) * ep) ^ 2 / ((m.length : ℚ) * ep) +
               ((m.count true : ℚ) - (m.length : ℚ) * ep) ^ 2 / ((m.length : ℚ) * ep)))
            interpretation := if (0.05 : ℚ) < 1 - chi2cdf
              (((m.count false : ℚ) - (m.length : ℚ) * ep) ^ 2 / ((m.length : ℚ) * ep) +
               ((m.count true : ℚ) - (m.length : ℚ) * ep) ^ 2 / ((m.length : ℚ) * ep))
              then "Random" else "Not random" } := by
  simp only [chi_square_test, if_neg h]

/-- C2: for every bit sequence with `total > 0` and `0 < expected_prob < 1`,
`chi_square_test` succeeds with
`statistic = (count_0 - total*ep)^2/(total*ep) + (count_1 - total*ep)^2/(total*ep)`
and `passes = (p_value > 0.05)`; a sequence of 100 zeros with
`expected_prob = 1/2` yields `statistic = 100` and `passes = false`, and a
sequence of 50 zeros and 50 ones yields `statistic = 0`, `p_value = 1`,
`passes = true`.  `chi2cdf` is abstract, assumed to satisfy two facts true
of the chi-square(1) CDF: `cdf 0 = 0` and `cdf 100 >= 0.95`. -/
theorem chi_square_spec (chi2cdf : ℚ → ℚ)
    (hcdf0 : chi2cdf 0 = 0) (hcdf100 : (0.95 : ℚ) ≤ chi2cdf 100) :
    (∀ (m : List Bool) (ep : ℚ), 0 < m.length → 0 < ep → ep < 1 →
      ∃ r, chi_square_test chi2cdf m ep = .ok r ∧
        ChiSquareResult.chi_square_statistic r =
          ((m.count false : ℚ) - (m.length : ℚ) * ep) ^ 2 / ((m.length : ℚ) * ep) +
          ((m.count true : ℚ) - (m.length : ℚ) * ep) ^ 2 / ((m.length : ℚ) * ep) ∧
        ChiSquareResult.passes_test r =
          decide ((0.05 : ℚ) < ChiSquareResult.p_value r)) ∧
    (∃ r, chi_square_test chi2cdf (List.replicate 100 false) (1 / 2) = .ok r ∧
      ChiSquareResult.chi_square_statistic r = 100 ∧
      ChiSquareResult.passes_test r = false) ∧
    (∃ r, chi_square_test chi2cdf
        (List.replicate 50 false ++ List.replicate 50 true) (1 / 2) = .ok r ∧
      ChiSquareResult.chi_square_statistic r = 0 ∧
      ChiSquareResult.p_value r = 1 ∧
      ChiSquareResult.passes_test r = true) := by
  refine ⟨?_, ?_, ?_⟩
  · intro m ep hlen hep _
    have h : (m.length : ℚ) * ep ≠ 0 := by
      have hq : (0 : ℚ) < (m.length : ℚ) := by exact_mod_cast hlen
      exact (mul_pos hq hep).ne'
    rw [chi_square_test_ok chi2cdf m ep h]
    exact ⟨_, rfl, rfl, rfl⟩
  · have h : ((List.replicate 100 false).length : ℚ) * (1 / 2) ≠ 0 := by
      rw [List.length_replicate]; norm_num
    rw [chi_square_test_ok chi2cdf _ _ h]
    have hF : (((List.replicate 100 false).count false : ℚ) -
          ((List.replicate 100 false).length : ℚ) * (1 / 2)) ^ 2 /
          (((List.replicate 100 false).length : ℚ) * (1 / 2)) +
        (((List.replicate 100 false).count true : ℚ) -
          ((List.replicate 100 false).length : ℚ) * (1 / 2)) ^ 2 /
          (((List.replicate 100 false).length : ℚ) * (1 / 2)) = 100 := by
      rw [List.count_replicate_self, List.count_replicate, List.length_replicate]
      norm_num
    rw [hF]
    refine ⟨_, rfl, rfl, ?_⟩
    rw [decide_eq_false_iff_not, not_lt]
    linarith
  · have h : ((List.replicate 50 false ++ List.replicate 50 true).length : ℚ) * (1 / 2) ≠ 0 := by
      rw [List.length_append, List.length_replicate, List.length_replicate]; norm_num
    rw [chi_square_test_ok chi2cdf _ _ h]
    have hF : (((List.replicate 50 false ++ List.replicate 50 true).count false : ℚ) -
          ((List.replicate 50 false ++ List.replicate 50 true).length : ℚ) * (1 / 2)) ^ 2 /
          (((List.replicate 50 false ++ List.replicate 50 true).length : ℚ) * (1 / 2)) +
        (((List.replicate 50 false ++ List.replicate 50 true).count true : ℚ) -
          ((List.replicate 50 false ++ List.replicate 50 true).length : ℚ) * (1 / 2)) ^ 2 /
          (((List.replicate 50 false ++ List.replicate 50 true).length : ℚ) * (1 / 2)) = 0 := by
      rw [List.count_append, List.count_append, List.count_replicate_self,
        List.count_replicate_self, List.count_replicate, List.count_replicate,
        List.length_append, List.length_replicate, List.length_replicate]
      norm_num
    rw [hF, hcdf0]
    refine ⟨_, rfl, rfl, by norm_num, ?_⟩
    rw [decide_eq_true_iff]
    norm_num

/-- Witness for C2: the theorem applied to a concrete admissible CDF. -/
theorem chi_square_spec_witness :
    ((fun x : ℚ => if x ≤ 0 then (0 : ℚ) else 1) 0 = 0) ∧
    ((0.95 : ℚ) ≤ (fun x : ℚ => if x ≤ 0 then (0 : ℚ) else 1) 100) ∧
    (∃ r, chi_square_test (fun x : ℚ => if x ≤ 0 then (0 : ℚ) else 1)
        (List.replicate 100 false) (1 / 2) = .ok r ∧
      ChiSquareResult.chi_square_statistic r = 100 ∧
      ChiSquareResult.passes_test r = false) := by
  have h0 : (fun x : ℚ => if x ≤ 0 then (0 : ℚ) else 1) 0 = 0 := by norm_num
  have h100 : (0.95 : ℚ) ≤ (fun x : ℚ => if x ≤ 0 then (0 : ℚ) else 1) 100 := by norm_num
  exact ⟨h0, h100, (chi_square_spec _ h0 h100).2.1⟩

/-! ### Claim C1 -/

/-- `runs_test` on a sequence of length 0 or 1: the integer division for
`expected_runs` (length 0) or for `variance` (length 1) has a zero
denominator and raises `ZeroDivisionError`. -/
theorem runs_test_short (sqrt Φ : ℚ → ℚ) (m : List Bool) (hlt : m.length < 2) :
    runs_test sqrt Φ m = .error .zeroDivisionError := by
  match m, hlt with
  | [], _ => rfl
  | [a], _ =>
    simp only [runs_test]
    norm_num

/-- `runs_test` on a single-valued sequence of length ≥ 2: `variance = 0`,
`np.sqrt(0) = 0`, and the z-score division is the NumPy float `0.0/0.0`,
which silently yields NaN; the NaN propagates into the p-value and makes
`passes_test` false. -/
theorem runs_test_single_valued (sqrt Φ : ℚ → ℚ) (hs0 : sqrt 0 = 0)
    (m : List Bool) (h2 : 2 ≤ m.length)
    (hdeg : m.count false = 0 ∨ m.count true = 0) :
    runs_test sqrt Φ m = .ok
      { runs_count := 1, expected_runs := 1, z_score := .nan, p_value := .nan,
        passes_test := false, interpretation := "Clustered" } := by
  have hn0 : m.length ≠ 0 := by omega
  have hlen : (2 : ℚ) ≤ (m.length : ℚ) := by exact_mod_cast h2
  have hden : ((m.length : ℚ)) ^ 2 * ((m.length : ℚ) - 1) ≠ 0 := by
    have h1 : (0 : ℚ) < (m.length : ℚ) ^ 2 := by positivity
    have h2q : (0 : ℚ) < (m.length : ℚ) - 1 := by linarith
    exact (mul_pos h1 h2q).ne'
  have hct : countTransitions m = 0 := by
    rcases hdeg with h | h
    · exact countTransitions_allEq true m (by
        intro b hb
        cases b
        · exact absurd (List.count_eq_zero.mp h) (by simp [hb])
        · rfl)
    · exact countTransitions_allEq false m (by
        intro b hb
        cases b
        · rfl
        · exact absurd (List.count_eq_zero.mp h) (by simp [hb]))
  have hprod : (2 * (m.count false) * (m.count true) : ℚ) = 0 := by
    rcases hdeg with h | h <;> rw [h] <;> norm_num
  simp only [runs_test, hct, hprod, if_neg hn0, if_neg hden]
  norm_num [npSqrt, hs0, pfDiv, pfAbs, normCdfPF, pfPvalue, pfGt]

/-- C1 counterexample: on the all-zero sequence `[0, 0]` of length 2,
`runs_test` raises nothing — it returns a result whose z-score and p-value
are NaN (NumPy `0.0/0.0`), which is exactly the silent-NaN outcome the
claim says cannot happen, and it does not produce `DegenerateInputError`. -/
theorem runs_degenerate_counterexample :
    runs_test (fun _ => 0) (fun _ => 0) [false, false] =
      .ok { runs_count := 1, expected_runs := 1, z_score := .nan, p_value := .nan,
            passes_test := false, interpretation := "Clustered" } ∧
    runs_test (fun _ => 0) (fun _ => 0) [false, false] ≠
      .error .degenerateInputError := by
  have h : runs_test (fun _ => (0 : ℚ)) (fun _ => (0 : ℚ)) [false, false] =
      .ok { runs_count := 1, expected_runs := 1, z_score := .nan, p_value := .nan,
            passes_test := false, interpretation := "Clustered" } := by
    simp only [runs_test, countTransitions]
    norm_num [List.count_cons, npSqrt, pfDiv, pfAbs, normCdfPF, pfPvalue, pfGt]
  exact ⟨h, by rw [h]; exact fun hc => Except.noConfusion hc⟩

/-- C1 (amended): `runs_test` raises no `DegenerateInputError` on any
degenerate input.  For sequences of length < 2 it raises
`ZeroDivisionError` (plain-Python integer division by zero); for
single-valued sequences of length ≥ 2 (in particular every all-zero
sequence) it silently returns a result with NaN z-score and p-value and
`passes_test = false`.  `sqrt` is `np.sqrt`, assumed only to satisfy
`sqrt 0 = 0`. -/
theorem runs_test_degenerate_behavior (sqrt Φ : ℚ → ℚ) (hs0 : sqrt 0 = 0) :
    (∀ m : List Bool, m.length < 2 →
      runs_test sqrt Φ m = .error .zeroDivisionError) ∧
    (∀ m : List Bool, 2 ≤ m.length → (m.count false = 0 ∨ m.count true = 0) →
      runs_test sqrt Φ m = .ok
        { runs_count := 1, expected_runs := 1, z_score := .nan, p_value := .nan,
          passes_test := false, interpretation := "Clustered" }) :=
  ⟨fun m hlt => runs_test_short sqrt Φ m hlt,
   fun m h2 hdeg => runs_test_single_valued sqrt Φ hs0 m h2 hdeg⟩

/-- Witness for C1: the theorem applied at `[1]` (length < 2) and at the
single-valued sequence `[1, 1, 1]`. -/
theorem runs_test_degenerate_behavior_witness :
    ((fun _ : ℚ => (0 : ℚ)) 0 = 0) ∧
    runs_test (fun _ => 0) (fun _ => 0) [true] = .error .zeroDivisionError ∧
    runs_test (fun _ => 0) (fun _ => 0) [true, true, true] = .ok
      { runs_count := 1, expected_runs := 1, z_score := .nan, p_value := .nan,
        passes_test := false, interpretation := "Clustered" } := by
  have hs0 : (fun _ : ℚ => (0 : ℚ)) 0 = 0 := rfl
  exact ⟨hs0,
    (runs_test_degenerate_behavior _ _ hs0).1 [true] (by norm_num),
    (runs_test_degenerate_behavior _ _ hs0).2 [true, true, true] (by norm_num)
      (by decide)⟩

/-! ### Claim C3 -/

/-- Evaluation of `runs_test` on the alternating 8-bit sequence, for any
positive abstract square root of the variance 12/7. -/
theorem runs_test_alt_eval (sqrt Φ : ℚ → ℚ) (hpos : 0 < sqrt (12 / 7)) :
    runs_test sqrt Φ [false, true, false, true, false, true, false, true] =
      .ok { runs_count := 8
            expected_runs := 5
            z_score := .fin (3 / sqrt (12 / 7))
            p_value := .fin (2 * (1 - Φ (3 / sqrt (12 / 7))))
            passes_test := decide ((0.05 : ℚ) < 2 * (1 - Φ (3 / sqrt (12 / 7))))
            interpretation :=
              if (0.05 : ℚ) < 2 * (1 - Φ (3 / sqrt (12 / 7)))
              then "Random" else "Clustered" } := by
  have hct : countTransitions [false, true, false, true, false, true, false, true] = 7 := rfl
  have hcf : [false, true, false, true, false, true, false, true].count false = 4 := rfl
  have hctr : [false, true, false, true, false, true, false, true].count true = 4 := rfl
  have hlen : [false, true, false, true, false, true, false, true].length = 8 := rfl
  simp only [runs_test, hct, hcf, hctr, hlen]
  have hn0 : (8 : ℕ) ≠ 0 := by norm_num
  have hden : ((8 : ℕ) : ℚ) ^ 2 * (((8 : ℕ) : ℚ) - 1) ≠ 0 := by norm_num
  rw [if_neg hn0, if_neg hden]
  have hvar : (2 * ((4 : ℕ) : ℚ) * ((4 : ℕ) : ℚ)) * ((2 * ((4 : ℕ) : ℚ) * ((4 : ℕ) : ℚ)) - ((8 : ℕ) : ℚ)) /
      (((8 : ℕ) : ℚ) ^ 2 * (((8 : ℕ) : ℚ) - 1)) = 12 / 7 := by
    norm_num
  have hexp : (2 * ((4 : ℕ) : ℚ) * ((4 : ℕ) : ℚ)) / ((8 : ℕ) : ℚ) + 1 = 5 := by
    norm_num
  rw [hvar, hexp]
  have hsq : npSqrt sqrt (.fin (12 / 7)) = .fin (sqrt (12 / 7)) := by
    simp only [npSqrt]
    norm_num
  rw [hsq]
  have hnum : (((1 + 7 : ℕ) : ℚ) - 5) = 3 := by norm_num
  rw [hnum]
  have hz : pfDiv (.fin 3) (.fin (sqrt (12 / 7))) = .fin (3 / sqrt (12 / 7)) := by
    simp only [pfDiv, if_neg hpos.ne']
  rw [hz]
  have habs : pfAbs (.fin (3 / sqrt (12 / 7))) = .fin (3 / sqrt (12 / 7)) := by
    simp only [pfAbs]
    rw [abs_of_pos (by positivity)]
  rw [habs]
  simp only [normCdfPF, pfPvalue, pfGt]
  norm_num [decide_eq_true_eq]

/-- C3 (amended): on `[0,1,0,1,0,1,0,1]` the runs test yields
`runs = 8`, `n0 = n1 = 4`, `expected_runs = 5`, but `passes = false`, not
true: `z = 3 / sqrt(12/7) ≥ 2 > 1.96`, so the two-sided p-value
`2*(1 - Φ(z))` is at most `2*(1 - 0.975) = 0.05` and the `p > 0.05` check
fails ("Clustered").  `sqrt` and `Φ` are abstract, assumed to satisfy
interval facts true of `np.sqrt` and the standard normal CDF. -/
theorem runs_alternating_fails (sqrt Φ : ℚ → ℚ)
    (hsqrt : SqrtFacts sqrt) (hΦ : NormalCdfFacts Φ) :
    ∃ r, runs_test sqrt Φ [false, true, false, true, false, true, false, true] =
        .ok r ∧
      RunsResult.runs_count r = 8 ∧
      List.count false [false, true, false, true, false, true, false, true] = 4 ∧
      List.count true [false, true, false, true, false, true, false, true] = 4 ∧
      RunsResult.expected_runs r = 5 ∧
      RunsResult.passes_test r = false ∧
      RunsResult.interpretation r = "Clustered" := by
  obtain ⟨hs0, hsl, hsu⟩ := hsqrt
  obtain ⟨hΦ975, hΦ1⟩ := hΦ
  have hpos : 0 < sqrt (12 / 7) := lt_of_lt_of_le (by norm_num) hsl
  rw [runs_test_alt_eval sqrt Φ hpos]
  have hz2 : (2 : ℚ) ≤ 3 / sqrt (12 / 7) := by
    rw [le_div_iff₀ hpos]
    linarith
  have h975 : (0.975 : ℚ) = 39 / 40 := by norm_num
  have h005 : (0.05 : ℚ) = 1 / 20 := by norm_num
  have hΦval : (39 / 40 : ℚ) ≤ Φ (3 / sqrt (12 / 7)) := by
    rw [← h975]
    exact hΦ975 _ hz2
  have hp : 2 * (1 - Φ (3 / sqrt (12 / 7))) ≤ 0.05 := by
    rw [h005]
    linarith
  have hpass : decide ((0.05 : ℚ) < 2 * (1 - Φ (3 / sqrt (12 / 7)))) = false := by
    rw [decide_eq_false_iff_not, not_lt]
    exact hp
  exact ⟨_, rfl, rfl, rfl, rfl, rfl, hpass, if_neg (not_lt.mpr hp)⟩

/-- C3 counterexample: the claim "passes == True on the alternating
sequence" is false for every square root and normal CDF consistent with
the numerical facts `SqrtFacts` and `NormalCdfFacts` (which the genuine
`np.sqrt` and `scipy.stats.norm.cdf` satisfy). -/
theorem runs_alternating_counterexample :
    ¬ (∀ sqrt Φ : ℚ → ℚ, SqrtFacts sqrt → NormalCdfFacts Φ →
        ∃ r, runs_test sqrt Φ [false, true, false, true, false, true, false, true] =
            .ok r ∧
          RunsResult.passes_test r = true) := by
  intro h
  have hfs : SqrtFacts (fun q => if q = 0 then 0 else 13 / 10) := by
    refine ⟨by norm_num, ?_, ?_⟩ <;> norm_num
  have hfΦ : NormalCdfFacts (fun x => if 2 ≤ x then 1 else 0) := by
    constructor
    · intro x hx
      show (0.975 : ℚ) ≤ if (2 : ℚ) ≤ x then 1 else 0
      rw [if_pos hx]
      norm_num
    · intro x
      show (if (2 : ℚ) ≤ x then (1 : ℚ) else 0) ≤ 1
      by_cases hx : (2 : ℚ) ≤ x
      · rw [if_pos hx]
      · rw [if_neg hx]
        norm_num
  obtain ⟨r, hr, hpass⟩ := h _ _ hfs hfΦ
  have hpos : (0 : ℚ) < (fun q : ℚ => if q = 0 then 0 else 13 / 10) (12 / 7) := by
    norm_num
  rw [runs_test_alt_eval _ _ hpos] at hr
  have hrr := (Except.ok.inj hr).symm
  rw [hrr] at hpass
  simp only [RunsResult.passes_test] at hpass
  rw [decide_eq_true_iff] at hpass
  norm_num at hpass

/-- Witness for C3: the theorem applied to concrete admissible `sqrt`/`Φ`. -/
theorem runs_alternating_fails_witness :
    SqrtFacts (fun q => if q = 0 then 0 else 13 / 10) ∧
    NormalCdfFacts (fun x => if 2 ≤ x then 1 else 0) ∧
    (∃ r, runs_test (fun q => if q = 0 then 0 else 13 / 10)
        (fun x => if 2 ≤ x then 1 else 0)
        [false, true, false, true, false, true, false, true] = .ok r ∧
      RunsResult.runs_count r = 8 ∧
      List.count false [false, true, false, true, false, true, false, true] = 4 ∧
      List.count true [false, true, false, true, false, true, false, true] = 4 ∧
      RunsResult.expected_runs r = 5 ∧
      RunsResult.passes_test r = false ∧
      RunsResult.interpretation r = "Clustered") := by
  have hfs : SqrtFacts (fun q => if q = 0 then 0 else 13 / 10) := by
    refine ⟨by norm_num, ?_, ?_⟩ <;> norm_num
  have hfΦ : NormalCdfFacts (fun x => if 2 ≤ x then 1 else 0) := by
    constructor
    · intro x hx
      show (0.975 : ℚ) ≤ if (2 : ℚ) ≤ x then 1 else 0
      rw [if_pos hx]
      norm_num
    · intro x
      show (if (2 : ℚ) ≤ x then (1 : ℚ) else 0) ≤ 1
      by_cases hx : (2 : ℚ) ≤ x
      · rw [if_pos hx]
      · rw [if_neg hx]
        norm_num
  exact ⟨hfs, hfΦ, runs_alternating_fails _ _ hfs hfΦ⟩

/-! ### Claims C6 and C7: entropy -/

theorem probs_sum_one (m : List Bool) (hm : m.length ≠ 0) :
    (m.count false : ℚ) / (m.length : ℚ) + (m.count true : ℚ) / (m.length : ℚ) = 1 := by
  have hlen : (m.length : ℚ) ≠ 0 := by exact_mod_cast hm
  rw [div_add_div_same]
  rw [show ((m.count false : ℚ) + (m.count true : ℚ)) = (m.length : ℚ) by
    exact_mod_cast congrArg (Nat.cast : ℕ → ℚ) (count_false_add_count_true m)]
  exact div_self hlen

theorem shannonEntropyOf_one_zero : shannonEntropyOf 1 0 = 0 := by
  rw [shannonEntropyOf]
  norm_num

theorem shannonEntropyOf_zero_one : shannonEntropyOf 0 1 = 0 := by
  rw [shannonEntropyOf]
  norm_num

theorem entropy_test_eq (m : List Bool) (hm0 : m.length ≠ 0) :
    entropy_test m = .ok
      { shannon_entropy := shannonEntropyOf ((m.count false : ℚ) / (m.length : ℚ))
          ((m.count true : ℚ) / (m.length : ℚ))
        max_entropy := 1.0
        entropy_ratio := shannonEntropyOf ((m.count false : ℚ) / (m.length : ℚ))
          ((m.count true : ℚ) / (m.length : ℚ)) / 1.0
        quality :=
          if (0.95 : ℝ) < shannonEntropyOf ((m.count false : ℚ) / (m.length : ℚ))
              ((m.count true : ℚ) / (m.length : ℚ)) / 1.0 then "Excellent"
          else if (0.85 : ℝ) < shannonEntropyOf ((m.count false : ℚ) / (m.length : ℚ))
              ((m.count true : ℚ) / (m.length : ℚ)) / 1.0 then "Good" else "Poor" } := by
  simp only [entropy_test, if_neg hm0]

theorem get_statistics_eq (m : List Bool) (hmE : m.isEmpty = false) :
    get_statistics m = .ok
      { total_measurements := m.length
        count_0 := m.count false
        count_1 := m.count true
        probability_0 := (m.count false : ℚ) / (m.length : ℚ)
        probability_1 := (m.count true : ℚ) / (m.length : ℚ)
        shannon_entropy := shannonEntropyOf ((m.count false : ℚ) / (m.length : ℚ))
          ((m.count true : ℚ) / (m.length : ℚ))
        max_entropy := 1.0
        entropy_ratio := shannonEntropyOf ((m.count false : ℚ) / (m.length : ℚ))
          ((m.count true : ℚ) / (m.length : ℚ)) / (1.0 : ℝ) } := by
  simp only [get_statistics, hmE, Bool.false_eq_true, if_false]

/-- C6: for every non-empty bit sequence, both `entropy_test` and
`get_statistics` compute the Shannon entropy by the guarded accumulation
`shannonEntropyOf` — only outcomes with probability > 0 contribute, a
zero-probability outcome contributes exactly 0 (never a NaN term: the
logarithm is only ever applied to a positive argument), and an all-zero
or all-one sequence yields entropy exactly 0. -/
theorem entropy_zero_guard (m : List Bool) (hm : m ≠ []) :
    (∃ r, entropy_test m = .ok r ∧
      EntropyResult.shannon_entropy r =
        shannonEntropyOf ((m.count false : ℚ) / (m.length : ℚ))
          ((m.count true : ℚ) / (m.length : ℚ)) ∧
      ((m.count false = 0 ∨ m.count true = 0) →
        EntropyResult.shannon_entropy r = 0)) ∧
    (∃ st, get_statistics m = .ok st ∧
      Statistics.shannon_entropy st =
        shannonEntropyOf ((m.count false : ℚ) / (m.length : ℚ))
          ((m.count true : ℚ) / (m.length : ℚ)) ∧
      ((m.count false = 0 ∨ m.count true = 0) →
        Statistics.shannon_entropy st = 0)) := by
  have hm0 : m.length ≠ 0 := by
    intro h
    exact hm (List.length_eq_zero.mp h)
  have hmE : m.isEmpty = false := by
    rw [List.isEmpty_eq_false_iff_exists_mem]
    exact ⟨m.head hm, List.head_mem hm⟩
  have hlen : (m.length : ℚ) ≠ 0 := by exact_mod_cast hm0
  have hsum := count_false_add_count_true m
  have hzero : (m.count false = 0 ∨ m.count true = 0) →
      shannonEntropyOf ((m.count false : ℚ) / (m.length : ℚ))
        ((m.count true : ℚ) / (m.length : ℚ)) = 0 := by
    rintro (h | h)
    · have h1 : m.count true = m.length := by omega
      rw [h, h1, Nat.cast_zero, zero_div, div_self hlen]
      exact shannonEntropyOf_zero_one
    · have h1 : m.count false = m.length := by omega
      rw [h, h1, Nat.cast_zero, zero_div, div_self hlen]
      exact shannonEntropyOf_one_zero
  exact ⟨⟨_, entropy_test_eq m hm0, rfl, fun h => hzero h⟩,
    ⟨_, get_statistics_eq m hmE, rfl, fun h => hzero h⟩⟩

/-- C7: for every non-empty bit sequence, the computed `entropy_ratio`
satisfies `0 ≤ entropy_ratio ≤ 1`, with equality to 1 exactly when both
empirical probabilities are exactly 1/2. -/
theorem entropy_ratio_bounds (m : List Bool) (hm : m ≠ []) :
    (∃ r, entropy_test m = .ok r ∧
      0 ≤ EntropyResult.entropy_ratio r ∧ EntropyResult.entropy_ratio r ≤ 1 ∧
      (EntropyResult.entropy_ratio r = 1 ↔
        (m.count false : ℚ) / (m.length : ℚ) = 1 / 2 ∧
        (m.count true : ℚ) / (m.length : ℚ) = 1 / 2)) ∧
    (∃ st, get_statistics m = .ok st ∧
      0 ≤ Statistics.entropy_ratio st ∧ Statistics.entropy_ratio st ≤ 1 ∧
      (Statistics.entropy_ratio st = 1 ↔
        Statistics.probability_0 st = 1 / 2 ∧
        Statistics.probability_1 st = 1 / 2)) := by
  have hm0 : m.length ≠ 0 := by
    intro h
    exact hm (List.length_eq_zero.mp h)
  have hmE : m.isEmpty = false := by
    rw [List.isEmpty_eq_false_iff_exists_mem]
    exact ⟨m.head hm, List.head_mem hm⟩
  have hb := guardedEntropy_bounds ((m.count false : ℚ) / (m.length : ℚ))
    ((m.count true : ℚ) / (m.length : ℚ))
    (div_nonneg (Nat.cast_nonneg _) (Nat.cast_nonneg _))
    (div_nonneg (Nat.cast_nonneg _) (Nat.cast_nonneg _))
    (probs_sum_one m hm0)
  have hone : shannonEntropyOf ((m.count false : ℚ) / (m.length : ℚ))
      ((m.count true : ℚ) / (m.length : ℚ)) / (1.0 : ℝ) =
      shannonEntropyOf ((m.count false : ℚ) / (m.length : ℚ))
      ((m.count true : ℚ) / (m.length : ℚ)) := by
    rw [show (1.0 : ℝ) = 1 by norm_num, div_one]
  constructor
  · refine ⟨_, entropy_test_eq m hm0, ?_, ?_, ?_⟩
    · show 0 ≤ shannonEntropyOf _ _ / (1.0 : ℝ)
      rw [hone]
      exact hb.1
    · show shannonEntropyOf _ _ / (1.0 : ℝ) ≤ 1
      rw [hone]
      exact hb.2.1
    · show shannonEntropyOf _ _ / (1.0 : ℝ) = 1 ↔ _
      rw [hone]
      exact hb.2.2
  · refine ⟨_, get_statistics_eq m hmE, ?_, ?_, ?_⟩
    · show 0 ≤ shannonEntropyOf _ _ / (1.0 : ℝ)
      rw [hone]
      exact hb.1
    · show shannonEntropyOf _ _ / (1.0 : ℝ) ≤ 1
      rw [hone]
      exact hb.2.1
    · show shannonEntropyOf _ _ / (1.0 : ℝ) = 1 ↔ _
      rw [hone]
      exact hb.2.2

/-- Witness for C6: the theorem applied at the all-zero sequence `[0, 0]`,
whose Shannon entropy is 0. -/
theorem entropy_zero_guard_witness :
    ([false, false] ≠ ([] : List Bool)) ∧
    ((∃ r, entropy_test [false, false] = .ok r ∧
      EntropyResult.shannon_entropy r =
        shannonEntropyOf (([false, false].count false : ℚ) / ([false, false].length : ℚ))
          (([false, false].count true : ℚ) / ([false, false].length : ℚ)) ∧
      (([false, false].count false = 0 ∨ [false, false].count true = 0) →
        EntropyResult.shannon_entropy r = 0)) ∧
    (∃ st, get_statistics [false, false] = .ok st ∧
      Statistics.shannon_entropy st =
        shannonEntropyOf (([false, false].count false : ℚ) / ([false, false].length : ℚ))
          (([false, false].count true : ℚ) / ([false, false].length : ℚ)) ∧
      (([false, false].count false = 0 ∨ [false, false].count true = 0) →
        Statistics.shannon_entropy st = 0))) :=
  ⟨by decide, entropy_zero_guard [false, false] (by decide)⟩

/-- Witness for C7: the theorem applied at the balanced sequence `[0, 1]`. -/
theorem entropy_ratio_bounds_witness :
    ([false, true] ≠ ([] : List Bool)) ∧
    ((∃ r, entropy_test [false, true] = .ok r ∧
      0 ≤ EntropyResult.entropy_ratio r ∧ EntropyResult.entropy_ratio r ≤ 1 ∧
      (EntropyResult.entropy_ratio r = 1 ↔
        (([false, true].count false : ℚ) / ([false, true].length : ℚ) = 1 / 2 ∧
         ([false, true].count true : ℚ) / ([false, true].length : ℚ) = 1 / 2))) ∧
    (∃ st, get_statistics [false, true] = .ok st ∧
      0 ≤ Statistics.entropy_ratio st ∧ Statistics.entropy_ratio st ≤ 1 ∧
      (Statistics.entropy_ratio st = 1 ↔
        Statistics.probability_0 st = 1 / 2 ∧
        Statistics.probability_1 st = 1 / 2))) :=
  ⟨by decide, entropy_ratio_bounds [false, true] (by decide)⟩

/-! ### Claim C10 -/

theorem countTransitions_replicate (n : ℕ) (x : Bool) :
    countTransitions (List.replicate n x) = 0 :=
  countTransitions_allEq x _ (fun _ hb => List.eq_of_mem_replicate hb)

theorem countTransitions_rep_append (a b : ℕ) (x y : Bool) :
    countTransitions (List.replicate a x ++ List.replicate b y) ≤ 1 := by
  induction a with
  | zero =>
    rw [List.replicate_zero, List.nil_append, countTransitions_replicate]
    norm_num
  | succ n ih =>
    cases n with
    | zero =>
      cases b with
      | zero =>
        show countTransitions (List.replicate 1 x ++ List.replicate 0 y) ≤ 1
        simp [countTransitions]
      | succ c =>
        have he : List.replicate 1 x ++ List.replicate (c + 1) y
            = x :: y :: List.replicate c y := by
          simp [List.replicate_succ]
        rw [he]
        have h2 : countTransitions (y :: List.replicate c y) = 0 := by
          have h := countTransitions_replicate (c + 1) y
          rwa [List.replicate_succ] at h
        show (if x ≠ y then 1 else 0) + countTransitions (y :: List.replicate c y) ≤ 1
        rw [h2]
        split <;> norm_num
    | succ k =>
      have he : List.replicate (k + 2) x ++ List.replicate b y
          = x :: (List.replicate (k + 1) x ++ List.replicate b y) := by
        simp [List.replicate_succ]
      have he2 : List.replicate (k + 1) x ++ List.replicate b y
          = x :: (List.replicate k x ++ List.replicate b y) := by
        simp [List.replicate_succ]
      rw [he, he2]
      show (if x ≠ x then 1 else 0) +
        countTransitions (x :: (List.replicate k x ++ List.replicate b y)) ≤ 1
      rw [if_neg (by simp), ← he2]
      simpa using ih

/-- C10: the bit list `generate_random_bits` expands from the aggregated
outcome-counts dictionary is a concatenation of at most one block of 0s and
one block of 1s (in dictionary order), hence has at most one value
transition — at most 2 maximal runs; measurement order is not represented.
Hypotheses: the `get_counts` dictionary of a 1-qubit measurement has
pairwise-distinct keys among "0" and "1". -/
theorem generate_bits_contiguous (counts : List (String × ℕ))
    (hkeys : ∀ kc ∈ counts, kc.1 = "0" ∨ kc.1 = "1")
    (hnodup : counts.Pairwise (fun a b => a.1 ≠ b.1)) :
    (∃ a b, generate_random_bits counts =
        List.replicate a false ++ List.replicate b true ∨
      generate_random_bits counts =
        List.replicate a true ++ List.replicate b false) ∧
    countTransitions (generate_random_bits counts) ≤ 1 := by
  have hshape : ∃ a b, generate_random_bits counts =
      List.replicate a false ++ List.replicate b true ∨
      generate_random_bits counts =
      List.replicate a true ++ List.replicate b false := by
    match counts, hkeys, hnodup with
    | [], _, _ =>
      exact ⟨0, 0, Or.inl (by simp [generate_random_bits])⟩
    | [(k, c)], hk, _ =>
      rcases hk (k, c) (by simp) with h | h
      · have hb : (k == "1") = false := by rw [show k = "0" from h]; decide
        refine ⟨c, 0, Or.inl ?_⟩
        simp [generate_random_bits, hb]
      · have hb : (k == "1") = true := by rw [show k = "1" from h]; decide
        refine ⟨0, c, Or.inl ?_⟩
        simp [generate_random_bits, hb]
    | [(k1, c1), (k2, c2)], hk, hnd =>
      have h12 : k1 ≠ k2 := by
        have := List.pairwise_cons.mp hnd
        exact this.1 (k2, c2) (by simp)
      rcases hk (k1, c1) (by simp) with h1 | h1 <;>
        rcases hk (k2, c2) (by simp) with h2 | h2
      · exact absurd (h1.trans h2.symm) h12
      · have hb1 : (k1 == "1") = false := by rw [show k1 = "0" from h1]; decide
        have hb2 : (k2 == "1") = true := by rw [show k2 = "1" from h2]; decide
        refine ⟨c1, c2, Or.inl ?_⟩
        simp [generate_random_bits, hb1, hb2]
      · have hb1 : (k1 == "1") = true := by rw [show k1 = "1" from h1]; decide
        have hb2 : (k2 == "1") = false := by rw [show k2 = "0" from h2]; decide
        refine ⟨c1, c2, Or.inr ?_⟩
        simp [generate_random_bits, hb1, hb2]
      · exact absurd (h1.trans h2.symm) h12
    | (k1, c1) :: (k2, c2) :: (k3, c3) :: t, hk, hnd =>
      have h1 := hk (k1, c1) (by simp)
      have h2 := hk (k2, c2) (by simp)
      have h3 := hk (k3, c3) (by simp)
      have hp := List.pairwise_cons.mp hnd
      have h12 : k1 ≠ k2 := hp.1 (k2, c2) (by simp)
      have h13 : k1 ≠ k3 := hp.1 (k3, c3) (by simp)
      have hp2 := List.pairwise_cons.mp hp.2
      have h23 : k2 ≠ k3 := hp2.1 (k3, c3) (by simp)
      rcases h1 with h1 | h1 <;> rcases h2 with h2 | h2 <;>
        rcases h3 with h3 | h3 <;> simp_all
  obtain ⟨a, b, hab⟩ := hshape
  refine ⟨⟨a, b, hab⟩, ?_⟩
  rcases hab with h | h <;> rw [h] <;> exact countTransitions_rep_append _ _ _ _

/-- Witness for C10 at the concrete counts dictionary `{"0": 2, "1": 3}`. -/
theorem generate_bits_contiguous_witness :
    (∀ kc ∈ [("0", 2), ("1", 3)], kc.1 = "0" ∨ kc.1 = "1") ∧
    List.Pairwise (fun a b => a.1 ≠ b.1) [("0", 2), ("1", 3)] ∧
    ((∃ a b, generate_random_bits [("0", 2), ("1", 3)] =
        List.replicate a false ++ List.replicate b true ∨
      generate_random_bits [("0", 2), ("1", 3)] =
        List.replicate a true ++ List.replicate b false) ∧
    countTransitions (generate_random_bits [("0", 2), ("1", 3)]) ≤ 1) := by
  have hk : ∀ kc ∈ [("0", 2), ("1", 3)], kc.1 = "0" ∨ kc.1 = "1" := by decide
  have hnd : List.Pairwise (fun a b => a.1 ≠ b.1) [("0", 2), ("1", 3)] := by decide
  exact ⟨hk, hnd, generate_bits_contiguous _ hk hnd⟩

end QRNG
